import Mathlib

/-!
# Verification of the `xiaofeigun-memory-local` memory index

A shallow embedding of `memory_index.py` (class `MemoryIndex`): keyword
extraction, synonym expansion, chunking, index building (full and
incremental), BM25 scoring, the hot-memory search path, and file-change
detection.  Python strings are modelled as Lean `String` (a list of
code points, matching Python's code-point indexing), dicts as insertion
ordered association lists, floats as `ℝ`.

The MD5-based chunk hash `hashlib.md5(text.encode()).hexdigest()[:8]` is
used by the source purely as an identity key derived from the chunk text;
we model it as the chunk text itself (equal texts give equal hashes, and
distinct texts give distinct hashes; hash collisions are not modelled).
-/

namespace MemoryLocal

/-- ASCII lower-casing of one character.  Models Python `str.lower()`
restricted to the character classes actually occurring in this corpus
(ASCII letters and CJK, on which Python lower-casing is the identity). -/
def charLower (c : Char) : Char :=
  if 'A' ≤ c ∧ c ≤ 'Z' then Char.ofNat (c.toNat + 32) else c

/-- Python `text.lower()`. -/
def lowerStr (s : String) : String :=
  String.mk (s.data.map charLower)

/-- Python `"\n".join(lines)`. -/
def joinNL : List String → String
  | [] => ""
  | [x] => x
  | x :: rest => x ++ "\n" ++ joinNL rest

/-- Auxiliary splitter for `splitLines`: accumulates the current line
(reversed) and emits a line at each newline character. -/
def splitLinesAux : List Char → List Char → List String
  | [], acc => [String.mk acc.reverse]
  | c :: rest, acc =>
    if c = '\n' then String.mk acc.reverse :: splitLinesAux rest []
    else splitLinesAux rest (c :: acc)

/-- Python `text.split('\n')`: always returns at least one element;
`"".split('\n') = [""]`. -/
def splitLines (s : String) : List String :=
  splitLinesAux s.data []

/-- Fuelled scanner behind Python's non-overlapping `str.count`.  Fuel is
the length of the scanned text, which bounds the number of steps. -/
def countFrom : Nat → List Char → List Char → Nat
  | 0, _, _ => 0
  | _ + 1, [], _ => 0
  | fuel + 1, c :: rest, sub =>
    if sub.isPrefixOf (c :: rest) then
      1 + countFrom fuel ((c :: rest).drop sub.length) sub
    else countFrom fuel rest sub

/-- Python `s.count(sub)`: the number of non-overlapping occurrences of
`sub` in `s`, scanning left to right (`"abc".count("") = 4`). -/
def strCount (s sub : String) : Nat :=
  if sub.data = [] then s.data.length + 1
  else countFrom s.data.length s.data sub.data

/-- Python `sub in s` (substring containment; the empty string is a
substring of everything). -/
def strContains (s sub : String) : Bool :=
  if sub.data = [] then true else strCount s sub > 0

/-- Python `s.startswith(pre)`. -/
def strStartsWith (s pre : String) : Bool :=
  pre.data.isPrefixOf s.data

/-- Python `s.endswith(suf)`. -/
def strEndsWith (s suf : String) : Bool :=
  suf.data.isSuffixOf s.data

/-- Keep the first occurrence of each element, preserving order.  Models
the identification of Python `set` contents with a deterministic
insertion order (the source's `list(set(...))` has no ordering
guarantee; every downstream use is order-insensitive). -/
def dedupFirstAux : List String → List String → List String
  | [], _ => []
  | x :: xs, seen =>
    if x ∈ seen then dedupFirstAux xs seen else x :: dedupFirstAux xs (x :: seen)

def dedupFirst (l : List String) : List String :=
  dedupFirstAux l []

/-- Lookup in an insertion-ordered association list (Python dict read). -/
def assocFind {β : Type} (k : String) : List (String × β) → Option β
  | [] => none
  | (k', v) :: rest => if k' = k then some v else assocFind k rest

/-- Python dict write `m[k] = v`: replace in place if present, else
append. -/
def dictInsert {β : Type} (k : String) (v : β) : List (String × β) → List (String × β)
  | [] => [(k, v)]
  | (k', v') :: rest =>
    if k' = k then (k', v) :: rest else (k', v') :: dictInsert k v rest

/-- Is `c` in the CJK unified ideographs block `'一'..'鿿'`
(the check `'一' <= word[0] <= '鿿'` in `_extract_keywords`)? -/
def isCJK (c : Char) : Bool :=
  0x4e00 ≤ c.toNat && c.toNat ≤ 0x9fff

/-- Maximal runs of `[a-z]` in the (already lower-cased) text: models
`re.findall(r'[a-z]+', text)`. -/
def latinRunsAux : List Char → List Char → List String
  | [], acc => if acc.isEmpty then [] else [String.mk acc.reverse]
  | c :: rest, acc =>
    if 'a' ≤ c ∧ c ≤ 'z' then latinRunsAux rest (c :: acc)
    else if acc.isEmpty then latinRunsAux rest []
    else String.mk acc.reverse :: latinRunsAux rest []

def latinRuns (cs : List Char) : List String :=
  latinRunsAux cs []

/-- The sliding CJK window of `_extract_keywords`: at every position `i`,
for lengths 4, 3, 2 (in that order), if `i + length ≤ len(text)` and the
character at `i` is CJK, the substring `text[i:i+length]` is a
candidate.  Only the first character is checked against the CJK block,
exactly as in the source. -/
def cjkSubsAux : List Char → List String
  | [] => []
  | c :: rest =>
    (if isCJK c then
      ([4, 3, 2].filterMap fun len =>
        if len ≤ (c :: rest).length then some (String.mk ((c :: rest).take len)) else none)
     else []) ++ cjkSubsAux rest

def cjkSubs (cs : List Char) : List String :=
  cjkSubsAux cs

/-- The stop-word list of `_extract_keywords`, verbatim. -/
def stopwords : List String :=
  ["the", "and", "or", "but", "in", "on", "at", "to", "for",
   "of", "with", "by", "is", "are", "was", "were", "be", "been",
   "的", "了", "在", "是", "我", "有", "和", "就", "不", "人",
   "都", "一", "一个", "上", "也", "很", "到", "说", "要", "去",
   "你", "会", "着", "没有", "看", "好", "自己", "这", "那", "个",
   "能", "可以", "把", "让", "给", "被", "跟", "对", "向", "从"]

/-- `MemoryIndex._extract_keywords`: lower-case, extract Latin runs and
CJK window substrings, deduplicate, then drop one-character terms and
stop-words.  The returned list is duplicate-free, so each keyword occurs
exactly once in it. -/
def extract_keywords (text : String) : List String :=
  let t := (lowerStr text).data
  let english := latinRuns t
  let chinese := cjkSubs t
  let all := dedupFirst (english ++ chinese)
  all.filter fun w => w.length > 1 && !(stopwords.contains w)

/-- `MemoryIndex.SYNONYMS`, verbatim (asymmetric entries preserved). -/
def SYNONYMS : List (String × List String) :=
  [("小蝎子", ["用户", "主人", "朋友"]),
   ("用户", ["小蝎子", "主人", "朋友"]),
   ("小飞棍", ["我", "助手", "AI", "ai"]),
   ("我", ["小飞棍", "助手"]),
   ("记忆", ["记录", "日志", "笔记"]),
   ("记录", ["记忆", "日志"]),
   ("文件", ["文档", "资料"]),
   ("文档", ["文件", "资料"]),
   ("user", ["human", "person", "friend"]),
   ("ai", ["assistant", "bot", "agent"]),
   ("memory", ["record", "log", "note"]),
   ("file", ["document", "doc"])]

/-- `MemoryIndex._expand_query`: the union of the input terms with every
synonym listed for each input term (applied only at query time). -/
def expand_query (keywords : List String) : List String :=
  dedupFirst (keywords ++ keywords.flatMap fun kw => (assocFind kw SYNONYMS).getD [])

/-! ## Chunking (`MemoryIndex._chunk_text`) -/

/-- Identity stand-in for `hashlib.md5(text.encode()).hexdigest()[:8]`:
the hash is used by the source only as an identity key derived from the
chunk text (see the header note). -/
def md5hex8 (text : String) : String := text

/-- A raw chunk as produced by `_chunk_text`: text, 1-based inclusive
line range, content hash. -/
structure RawChunk where
  text : String
  start_line : Nat
  end_line : Nat
  hash : String
  deriving DecidableEq, Repr

/-- Close the chunk in progress: lines `curStart+1 .. endLine`
(1-based, inclusive). -/
def mkChunk (cur : List String) (curStart endLine : Nat) : RawChunk :=
  { text := joinNL cur, start_line := curStart + 1, end_line := endLine,
    hash := md5hex8 (joinNL cur) }

/-- The loop of `_chunk_text`: `i` is the 0-based index of the next
line, `cur` the chunk in progress (the lines `curStart .. i-1`).  A
heading-start line closes the current chunk provided it is non-empty;
after the loop the remaining lines form the final chunk, ending at the
file's total line count. -/
def chunkLoop : List String → Nat → List String → Nat → List RawChunk
  | [], i, cur, curStart =>
    if cur.isEmpty then [] else [mkChunk cur curStart i]
  | line :: rest, i, cur, curStart =>
    if strStartsWith line "#" && !cur.isEmpty then
      mkChunk cur curStart i :: chunkLoop rest (i + 1) [line] i
    else
      chunkLoop rest (i + 1) (cur ++ [line]) curStart

/-- `MemoryIndex._chunk_text`: split the text into heading-delimited
chunks. -/
def chunk_text (text : String) : List RawChunk :=
  chunkLoop (splitLines text) 0 [] 0

/-! ## Index data model (the persisted `index.json` record) -/

/-- One posting in the `keywords` map: `{"file", "hash", "freq"}`. -/
structure Posting where
  file : String
  hash : String
  freq : Nat
  deriving DecidableEq, Repr

/-- Per-chunk record stored under a file's `chunks` list by
`_index_single_file`.  The source dict has no `"text"` key — the chunk
text is dropped at indexing time — which we record as `text := none`;
`_search_in_hot_memory` reads it back with `chunk.get("text", "")`. -/
structure ChunkInfo where
  hash : String
  start_line : Nat
  end_line : Nat
  keywords : List String
  keyword_freq : List (String × Nat)
  length : Nat
  preview : String
  text : Option String
  deriving DecidableEq, Repr

/-- Per-file record in the `files` map. -/
structure FileInfo where
  path : String
  mtime : Int
  size : Nat
  chunks : List ChunkInfo
  deriving DecidableEq, Repr

/-- The `stats` record (derived, recomputed after every build). -/
structure IndexStats where
  total_files : Nat
  total_chunks : Nat
  total_keywords : Nat
  deriving DecidableEq, Repr

/-- The in-memory/persisted index.  `files` and `keywords` are
insertion-ordered dicts; the `created_at`/`updated_at` wall-clock
strings are not modelled (no claim concerns them). -/
structure Index where
  version : String
  files : List (String × FileInfo)
  keywords : List (String × List Posting)
  stats : IndexStats
  deriving DecidableEq, Repr

/-- The fresh index installed at the start of a full rebuild (and by
`_load_index` when no persisted file exists). -/
def emptyIndex : Index :=
  { version := "2.0", files := [], keywords := [],
    stats := { total_files := 0, total_chunks := 0, total_keywords := 0 } }

/-- A source file visible to the indexer: workspace-relative path,
content, and stat results (mtime modelled as an integer, size in
bytes). -/
structure SrcFile where
  path : String
  content : String
  mtime : Int
  size : Nat
  deriving DecidableEq, Repr

/-- Is `p` a direct `*.md` child of the `memory` subdirectory
(`self.memory_dir.glob("*.md")`)? -/
def isMemoryNote (p : String) : Bool :=
  strStartsWith p "memory/" && strEndsWith p ".md"
    && !((p.data.drop 7).contains '/')

/-- Corpus discovery of `build_index`/`check_for_changes`: every `*.md`
directly under `memory/`, plus the top-level `MEMORY.md` if present. -/
def eligibleFiles (ws : List SrcFile) : List SrcFile :=
  ws.filter (fun f => isMemoryNote f.path) ++ ws.filter (fun f => f.path = "MEMORY.md")

/-- Python `text[:200] + "..." if len(text) > 200 else text`. -/
def mkPreview (t : String) : String :=
  if t.length > 200 then String.mk (t.data.take 200) ++ "..." else t

/-- Append a posting to the term's list (creating the key at the end of
the dict if absent): the unconditional
`self.index["keywords"][kw].append(...)` of `_index_single_file`.
Note it never removes postings previously recorded for the same file. -/
def insertPosting (kw : String) (p : Posting) :
    List (String × List Posting) → List (String × List Posting)
  | [] => [(kw, [p])]
  | (k, ps) :: rest =>
    if k = kw then (k, ps ++ [p]) :: rest else (k, ps) :: insertPosting kw p rest

/-- `MemoryIndex._index_single_file` (the success path; a read failure
is out of scope of the claims): chunk the content, extract each chunk's
keywords, append postings for every keyword, then install the file
record.  Since `extract_keywords` returns a duplicate-free list,
`keywords.count(kw)` is 1 for every stored frequency. -/
def index_single_file (idx : Index) (f : SrcFile) : Index :=
  let chunks := chunk_text f.content
  let step := fun (st : Index × List ChunkInfo) (ch : RawChunk) =>
    let kws := extract_keywords ch.text
    let info : ChunkInfo :=
      { hash := ch.hash, start_line := ch.start_line, end_line := ch.end_line,
        keywords := kws,
        keyword_freq := (dedupFirst kws).map fun kw => (kw, kws.count kw),
        length := ch.text.length, preview := mkPreview ch.text, text := none }
    let idx' := (dedupFirst kws).foldl
      (fun ix kw =>
        { ix with keywords := insertPosting kw ⟨f.path, ch.hash, kws.count kw⟩ ix.keywords })
      st.1
    (idx', st.2 ++ [info])
  let (idx1, chunkInfos) := chunks.foldl step (idx, [])
  let fileInfo : FileInfo :=
    { path := f.path, mtime := f.mtime, size := f.size, chunks := chunkInfos }
  { idx1 with files := dictInsert f.path fileInfo idx1.files }

/-- `MemoryIndex.build_index`: full rebuild (`incremental = false`)
resets the whole index first; the incremental pass skips files whose
stored mtime matches, re-indexes the rest, then drops `files` entries
whose path is no longer eligible (without touching `keywords`).
Returns the updated index with `(indexed, skipped, deleted)` counts. -/
def build_index (incremental : Bool) (idx0 : Index) (ws : List SrcFile) :
    Index × Nat × Nat × Nat :=
  let idx := if incremental then idx0 else emptyIndex
  let memoryFiles := eligibleFiles ws
  let step := fun (st : Index × Nat × Nat) (f : SrcFile) =>
    let (ix, indexed, skipped) := st
    if incremental &&
        (match assocFind f.path ix.files with
         | some fi => fi.mtime = f.mtime
         | none => false) then
      (ix, indexed, skipped + 1)
    else
      (index_single_file ix f, indexed + 1, skipped)
  let (idx1, indexedCount, skippedCount) := memoryFiles.foldl step (idx, 0, 0)
  let (idx2, deletedCount) :=
    if incremental then
      let current := memoryFiles.map (·.path)
      let deleted := (idx1.files.map (·.1)).filter (fun p => !current.contains p)
      ({ idx1 with files := idx1.files.filter fun kv => current.contains kv.1 },
       deleted.length)
    else (idx1, 0)
  let totalChunks := (idx2.files.map fun kv => kv.2.chunks.length).sum
  let idx3 := { idx2 with stats :=
    { total_files := idx2.files.length, total_chunks := totalChunks,
      total_keywords := idx2.keywords.length } }
  (idx3, indexedCount, skippedCount, deletedCount)

/-! ## Ranking (`_calculate_bm25_score`, `_search_in_hot_memory`, `search`) -/

/-- BM25 `k1` (term-frequency saturation). -/
def BM25_K1 : ℝ := 1.5

/-- BM25 `b` (length normalisation). -/
def BM25_B : ℝ := 0.75

/-- `MemoryIndex._calculate_bm25_score`:
`IDF × (tf×(k1+1)) / (tf + k1×(1 − b + b×docLength/avgDocLength))` with
`IDF = ln((totalDocs − docFreq + 0.5)/(docFreq + 0.5) + 1)`.  The
integer arguments are the Python ints, `avg_doc_length` the Python
float. -/
noncomputable def calculate_bm25_score (doc_freq total_docs term_freq doc_length : Nat)
    (avg_doc_length : ℝ) : ℝ :=
  let idf := Real.log (((total_docs : ℝ) - (doc_freq : ℝ) + 0.5) / ((doc_freq : ℝ) + 0.5) + 1)
  let tf := ((term_freq : ℝ) * (BM25_K1 + 1)) /
    ((term_freq : ℝ) + BM25_K1 * (1 - BM25_B + BM25_B * ((doc_length : ℝ) / avg_doc_length)))
  idf * tf

/-- Accumulated per-`(file, chunkHash)` score data (the `defaultdict`
entries of `search`/`_search_in_hot_memory`). -/
structure ScoreData where
  score : ℝ
  matched_keywords : List String
  term_freqs : List (String × Nat)

/-- One entry of the list returned by `search`.  The BM25 path's dicts
carry no `is_hot` key, which we model as `is_hot := false`; the hot
path sets it to `true`. -/
structure ResultEntry where
  path : String
  start_line : Nat
  end_line : Nat
  preview : String
  score : ℝ
  matched_keywords : List String
  is_hot : Bool

/-- Keyed accumulation into the score dict: `defaultdict` creates a
zero entry on first touch, then `score += delta` and
`matched_keywords.append(kw)`. -/
def bumpScore (key : String × String) (delta : ℝ) (kw : String)
    (tf : Option (String × Nat)) :
    List ((String × String) × ScoreData) → List ((String × String) × ScoreData)
  | [] => [(key, { score := delta, matched_keywords := [kw],
                   term_freqs := match tf with | some p => [p] | none => [] })]
  | (k, d) :: rest =>
    if k = key then
      (k, { score := d.score + delta, matched_keywords := d.matched_keywords ++ [kw],
            term_freqs := match tf with
              | some p => dictInsert p.1 p.2 d.term_freqs
              | none => d.term_freqs }) :: rest
    else (k, d) :: bumpScore key delta kw tf rest

/-- Stable descending insertion for `sorted(..., key=score,
reverse=True)`: an element moves ahead only of strictly
lower-scored ones, so equal scores keep their original order. -/
noncomputable def insertDesc (x : (String × String) × ScoreData) :
    List ((String × String) × ScoreData) → List ((String × String) × ScoreData)
  | [] => [x]
  | y :: ys => if x.2.score ≥ y.2.score then x :: y :: ys else y :: insertDesc x ys

/-- Python `sorted(items, key=lambda kv: kv[1]["score"], reverse=True)`
(stable). -/
noncomputable def sortByScoreDesc :
    List ((String × String) × ScoreData) → List ((String × String) × ScoreData)
  | [] => []
  | x :: xs => insertDesc x (sortByScoreDesc xs)

/-- Result assembly shared by both search paths: for each scored
`(path, chunkHash)` key (best `top_k`), re-resolve the chunk by hash in
the owning file's chunk list (first match wins) and emit a result
entry with deduplicated matched keywords. -/
def assembleResults (idx : Index) (hot : Bool)
    (sorted : List ((String × String) × ScoreData)) (top_k : Nat) : List ResultEntry :=
  (sorted.take top_k).foldl
    (fun res entry =>
      let ((fp, h), d) := entry
      match assocFind fp idx.files with
      | none => res
      | some fi =>
        match fi.chunks.find? (fun c => c.hash = h) with
        | none => res
        | some c =>
          res ++ [{ path := fp, start_line := c.start_line, end_line := c.end_line,
                    preview := c.preview, score := d.score,
                    matched_keywords := dedupFirst d.matched_keywords, is_hot := hot }])
    []

/-- `MemoryIndex._is_hot_memory`: the path contains today's or
yesterday's date as a substring, or contains `MEMORY.md`.  The two
date strings (`datetime.now()` formatted) are threaded as
parameters. -/
def is_hot_memory (file_path today yesterday : String) : Bool :=
  strContains file_path today || strContains file_path yesterday
    || strContains file_path "MEMORY.md"

/-- `MemoryIndex._search_in_hot_memory`: score only hot documents; each
expanded query term contained in a chunk's stored text (read via
`chunk.get("text", "")`, lower-cased) contributes
`occurrenceCount × 2.0`.  Sorting and result assembly as in the BM25
path, with `is_hot := true`. -/
noncomputable def search_in_hot_memory (idx : Index) (today yesterday : String)
    (query_keywords : List String) (top_k : Nat) : List ResultEntry :=
  let hotScores := idx.files.foldl
    (fun acc kv =>
      if is_hot_memory kv.1 today yesterday then
        kv.2.chunks.foldl
          (fun acc c =>
            let ctext := lowerStr (c.text.getD "")
            query_keywords.foldl
              (fun acc kw =>
                if strContains ctext kw then
                  let freq := strCount ctext kw
                  if freq > 0 then
                    bumpScore (kv.1, c.hash) ((freq : ℝ) * 2.0) kw none acc
                  else acc
                else acc)
              acc)
          acc
      else acc)
    []
  if hotScores.isEmpty then []
  else assembleResults idx true (sortByScoreDesc hotScores) top_k

/-- The full-corpus BM25 pass of `MemoryIndex.search` (everything after
the hot-memory fast path): average chunk length, per-term IDF over
postings, per-posting scoring with chunk re-resolution by hash,
accumulation, sorting, truncation, assembly. -/
noncomputable def bm25_rank (idx : Index) (query_keywords : List String)
    (top_k : Nat) : List ResultEntry :=
  let total_length := (idx.files.map fun kv => (kv.2.chunks.map (·.length)).sum).sum
  let total_chunks := idx.stats.total_chunks
  let avg_doc_length : ℝ := if total_chunks > 0 then (total_length : ℝ) / (total_chunks : ℝ) else 1
  let total_docs := total_chunks
  let scores := query_keywords.foldl
    (fun acc kw =>
      match assocFind kw idx.keywords with
      | none => acc
      | some postings =>
        let doc_freq := postings.length
        postings.foldl
          (fun acc m =>
            match assocFind m.file idx.files with
            | none => acc
            | some fi =>
              match fi.chunks.find? (fun c => c.hash = m.hash) with
              | none => acc
              | some ci =>
                let s := calculate_bm25_score doc_freq total_docs m.freq ci.length avg_doc_length
                bumpScore (m.file, m.hash) s kw (some (kw, m.freq)) acc)
          acc)
    []
  assembleResults idx false (sortByScoreDesc scores) top_k

/-- `MemoryIndex.search`: empty corpus → `[]`; extract and expand the
query; no keywords → `[]`; optionally try the hot-memory fast path and
return it when its top score exceeds 1.0; otherwise the full BM25
pass. -/
noncomputable def search (idx : Index) (query : String) (top_k : Nat)
    (use_hot_memory_first : Bool) (today yesterday : String) : List ResultEntry :=
  if idx.files.isEmpty then []
  else
    let query_keywords := expand_query (extract_keywords query)
    if query_keywords.isEmpty then []
    else if use_hot_memory_first then
      match search_in_hot_memory idx today yesterday query_keywords top_k with
      | [] => bm25_rank idx query_keywords top_k
      | h :: t => if h.score > 1.0 then (h :: t).take top_k
                  else bm25_rank idx query_keywords top_k
    else bm25_rank idx query_keywords top_k

/-! ## Change detection (`check_for_changes`) and system state -/

/-- The persisted watcher record: `{"last_check", "file_mtimes"}`. -/
structure WatcherState where
  last_check : Int
  file_mtimes : List (String × Int)
  deriving DecidableEq, Repr

/-- The freshly observed timestamp map (`current_mtimes` in
`check_for_changes`): one dict entry per eligible file. -/
def currentMtimes (ws : List SrcFile) : List (String × Int) :=
  (eligibleFiles ws).foldl (fun m f => dictInsert f.path f.mtime m) []

/-- `MemoryIndex.check_for_changes`: detect any added/changed path
(first loop) or, failing that, any removed path (second loop), then
unconditionally overwrite the watcher state with the fresh map and the
current wall-clock time (`now` models `time.time()`).  Returns the
flag and the new state (which the source immediately persists). -/
def check_for_changes (ws : List SrcFile) (now : Int) (st : WatcherState) :
    Bool × WatcherState :=
  let current := currentMtimes ws
  let old := st.file_mtimes
  let changed1 := current.any fun pm => decide (assocFind pm.1 old ≠ some pm.2)
  let has_changes := if changed1 then true
    else old.any fun pm => decide (assocFind pm.1 current = none)
  (has_changes, { last_check := now, file_mtimes := current })

/-- The mutable state a `MemoryIndex` instance touches: the in-memory
index and watcher state plus their persisted (on-disk) mirrors. -/
structure SystemState where
  index : Index
  watcher : WatcherState
  persistedIndex : Option Index
  persistedWatcher : Option WatcherState
  deriving DecidableEq

/-- `search` as a state transformer: the method only reads
`self.index` — it assigns no attribute and writes no file — so the
state component is returned untouched. -/
noncomputable def searchOp (st : SystemState) (query : String) (top_k : Nat)
    (use_hot_memory_first : Bool) (today yesterday : String) :
    List ResultEntry × SystemState :=
  (search st.index query top_k use_hot_memory_first today yesterday, st)

/-- `check_for_changes` as a state transformer: overwrites
`self.watcher_state` and persists it via `_save_watcher`. -/
def check_for_changes_op (st : SystemState) (ws : List SrcFile) (now : Int) :
    Bool × SystemState :=
  let (b, w) := check_for_changes ws now st.watcher
  (b, { st with watcher := w, persistedWatcher := some w })

/-- `build_index` as a state transformer: replaces `self.index` and
persists it via `_save_index`. -/
def build_index_op (st : SystemState) (incremental : Bool) (ws : List SrcFile) :
    SystemState :=
  let idx := (build_index incremental st.index ws).1
  { st with index := idx, persistedIndex := some idx }

/-! ## Specification-side predicates and concrete fixtures -/

/-- Well-formed chunk line ranges: starting at line `s`, the chunks are
contiguous, each spans at least one line (so in particular no empty
leading chunk exists), and the chain ends exactly at line `n`. -/
def chunksWF : Nat → Nat → List RawChunk → Bool
  | s, n, [] => decide (s = n + 1)
  | s, n, c :: cs =>
    decide (c.start_line = s) && decide (s ≤ c.end_line) && chunksWF (c.end_line + 1) n cs

/-- The postings invariant of the spec's data model: every posting
references a document present in `files` whose current chunk list
contains the posting's hash. -/
def postingsConsistent (idx : Index) : Bool :=
  idx.keywords.all fun kv => kv.2.all fun p =>
    match assocFind p.file idx.files with
    | some fi => fi.chunks.any fun c => c.hash = p.hash
    | none => false

/-- Corpus fixture: one note file, first version. -/
def fs1 : List SrcFile := [⟨"memory/a.md", "alpha beta", 1, 10⟩]

/-- The same note after an edit (new content, new mtime). -/
def fs2 : List SrcFile := [⟨"memory/a.md", "gamma delta", 2, 11⟩]

/-- Full rebuild on `fs1`. -/
def idxFull1 : Index := (build_index false emptyIndex fs1).1

/-- Incremental update of `idxFull1` after the edit. -/
def idxInc : Index := (build_index true idxFull1 fs2).1

/-- Full rebuild on the edited corpus, for comparison. -/
def idxRe : Index := (build_index false emptyIndex fs2).1

/-- Incremental update of `idxFull1` after the note was deleted. -/
def idxDel : Index := (build_index true idxFull1 []).1

/-- Corpus fixture for the hot-memory path: a `MEMORY.md` (always hot)
whose single chunk's source text contains `hello` twice. -/
def fsC2 : List SrcFile := [⟨"MEMORY.md", "# Note\nhello world hello", 1, 20⟩]

def idxC2 : Index := (build_index false emptyIndex fsC2).1

/-- Corpus fixture for synonym search: a note containing only
`小蝎子`. -/
def fs7 : List SrcFile := [⟨"memory/notes.md", "小蝎子", 1, 9⟩]

def idx7 : Index := (build_index false emptyIndex fs7).1

/-- Corpus fixture with one indexed note (used to exercise queries that
extract no keywords against a non-empty corpus). -/
def fsW : List SrcFile := [⟨"memory/w.md", "alpha", 1, 5⟩]

def idxW : Index := (build_index false emptyIndex fsW).1

/-- A concrete system state (empty index, blank watcher, nothing
persisted). -/
def sys0 : SystemState :=
  { index := emptyIndex, watcher := { last_check := 0, file_mtimes := [] },
    persistedIndex := none, persistedWatcher := none }

/-! ## Theorems -/

theorem splitLinesAux_ne_nil (cs acc : List Char) : splitLinesAux cs acc ≠ [] := by
  induction cs generalizing acc with
  | nil => simp [splitLinesAux]
  | cons c rest ih =>
    simp only [splitLinesAux]
    split
    · simp
    · exact ih _

theorem splitLines_ne_nil (s : String) : splitLines s ≠ [] :=
  splitLinesAux_ne_nil _ _

/-- The loop invariant of `_chunk_text`: if the chunk in progress holds
the lines `curStart .. i-1` (non-empty, so `curStart < i`), the chunks
the rest of the loop emits form a contiguous chain from line
`curStart + 1` to the total line count `i + ls.length`. -/
theorem chunkLoop_wf (ls : List String) :
    ∀ (i curStart : Nat) (cur : List String), cur ≠ [] → curStart < i →
    chunksWF (curStart + 1) (i + ls.length) (chunkLoop ls i cur curStart) = true := by
  induction ls with
  | nil =>
    intro i curStart cur hne hlt
    cases cur with
    | nil => exact absurd rfl hne
    | cons a as =>
      simp [chunkLoop, chunksWF, mkChunk]
      omega
  | cons l rest ih =>
    intro i curStart cur hne hlt
    cases cur with
    | nil => exact absurd rfl hne
    | cons a as =>
      have hn : i + (l :: rest).length = i + 1 + rest.length := by simp; omega
      rw [hn]
      by_cases hh : strStartsWith l "#" = true
      · have hrec := ih (i + 1) i [l] (by simp) (by omega)
        simp [chunkLoop, hh, chunksWF, mkChunk, hrec]
        omega
      · have hrec := ih (i + 1) curStart (a :: (as ++ [l])) (by simp) (by omega)
        simp only [List.cons_append] at hrec
        simp [chunkLoop, hh]
        simpa using hrec

/-- Claim C4: for every input text, the chunker's 1-based inclusive
line ranges form a contiguous, non-overlapping chain that starts at
line 1 and ends exactly at the file's total line count
(`len(text.split('\n'))`), with every chunk spanning at least one line
— so a text whose first line is already a heading produces no empty
leading chunk (the second conjunct shows this concretely: the heading
first line is absorbed into the first real chunk). -/
theorem c4_chunk_ranges_contiguous (t : String) :
    (chunk_text t ≠ [] ∧ chunksWF 1 (splitLines t).length (chunk_text t) = true) ∧
    (chunk_text "# a\nb\n# c\nd").map (fun c => (c.start_line, c.end_line)) =
      [(1, 2), (3, 4)] := by
  refine ⟨?_, by decide⟩
  obtain ⟨l0, rest, hsplit⟩ : ∃ l0 rest, splitLines t = l0 :: rest := by
    cases h : splitLines t with
    | nil => exact absurd h (splitLines_ne_nil t)
    | cons a b => exact ⟨a, b, rfl⟩
  have hstep : chunk_text t = chunkLoop rest 1 [l0] 0 := by
    simp [chunk_text, hsplit, chunkLoop]
  have hwf := chunkLoop_wf rest 1 0 [l0] (by simp) (by omega)
  have hlen : (splitLines t).length = 1 + rest.length := by
    rw [hsplit]; simp; omega
  constructor
  · rw [hstep]
    intro hnil
    rw [hnil] at hwf
    simp [chunksWF] at hwf
  · rw [hstep, hlen]
    exact hwf

/-- Per-term BM25 monotonicity in the term frequency: with
`doc_freq ≤ total_docs` the IDF is non-negative, and the saturating
term-frequency factor is non-decreasing, because its denominator's
additive constant `k1·(1 − b + b·docLength/avgDocLength)` is positive
whenever the average chunk length is. -/
theorem bm25_mono (doc_freq total_docs t1 t2 doc_length : Nat) (avg : ℝ)
    (hdf : doc_freq ≤ total_docs) (havg : 0 < avg) (ht : t1 ≤ t2) :
    calculate_bm25_score doc_freq total_docs t1 doc_length avg ≤
      calculate_bm25_score doc_freq total_docs t2 doc_length avg := by
  simp only [calculate_bm25_score, BM25_K1, BM25_B]
  have hdfR : (doc_freq : ℝ) ≤ (total_docs : ℝ) := Nat.cast_le.mpr hdf
  have hdf0 : (0 : ℝ) ≤ (doc_freq : ℝ) := Nat.cast_nonneg _
  have hx1 : (0 : ℝ) ≤ (t1 : ℝ) := Nat.cast_nonneg _
  have hx : (t1 : ℝ) ≤ (t2 : ℝ) := Nat.cast_le.mpr ht
  have hdl : (0 : ℝ) ≤ (doc_length : ℝ) := Nat.cast_nonneg _
  have hratio : (0 : ℝ) ≤ (doc_length : ℝ) / avg := div_nonneg hdl (le_of_lt havg)
  have hC : (0 : ℝ) < (1.5 : ℝ) * (1 - 0.75 + 0.75 * ((doc_length : ℝ) / avg)) := by
    nlinarith
  have hidf : (0 : ℝ) ≤
      Real.log (((total_docs : ℝ) - (doc_freq : ℝ) + 0.5) / ((doc_freq : ℝ) + 0.5) + 1) := by
    apply Real.log_nonneg
    have hnum : (0 : ℝ) ≤ (total_docs : ℝ) - (doc_freq : ℝ) + 0.5 := by linarith
    have hden : (0 : ℝ) < (doc_freq : ℝ) + 0.5 := by linarith
    have := div_nonneg hnum (le_of_lt hden)
    linarith
  apply mul_le_mul_of_nonneg_left _ hidf
  have h1 : (0 : ℝ) < (t1 : ℝ) + 1.5 * (1 - 0.75 + 0.75 * ((doc_length : ℝ) / avg)) := by
    linarith
  have h2 : (0 : ℝ) < (t2 : ℝ) + 1.5 * (1 - 0.75 + 0.75 * ((doc_length : ℝ) / avg)) := by
    linarith
  rw [div_le_div_iff₀ h1 h2]
  nlinarith [mul_le_mul_of_nonneg_right hx (le_of_lt hC)]

/-- Claim C6: with a fixed corpus (so the term's document frequency is
at most the total chunk count) and fixed chunk length, average chunk
length and document frequency, the per-term BM25 score (k1 = 1.5,
b = 0.75) is monotonically non-decreasing in the term frequency; hence
adding it to any already-accumulated score never decreases the
chunk's total. -/
theorem c6_bm25_term_freq_monotone (doc_freq total_docs t1 t2 doc_length : Nat)
    (avg : ℝ) (hdf : doc_freq ≤ total_docs) (havg : 0 < avg) (ht : t1 ≤ t2) :
    calculate_bm25_score doc_freq total_docs t1 doc_length avg ≤
      calculate_bm25_score doc_freq total_docs t2 doc_length avg ∧
    ∀ acc : ℝ, acc + calculate_bm25_score doc_freq total_docs t1 doc_length avg ≤
      acc + calculate_bm25_score doc_freq total_docs t2 doc_length avg :=
  ⟨bm25_mono doc_freq total_docs t1 t2 doc_length avg hdf havg ht,
   fun acc => add_le_add_left (bm25_mono doc_freq total_docs t1 t2 doc_length avg hdf havg ht) acc⟩

/-- Witness for C6 at a concrete input: document frequency 1 of 2
chunks, term frequency raised from 1 to 3, chunk length 4, average
length 2. -/
theorem c6_bm25_term_freq_monotone_witness :
    calculate_bm25_score 1 2 1 4 2 ≤ calculate_bm25_score 1 2 3 4 2 :=
  (c6_bm25_term_freq_monotone 1 2 1 3 4 2 (by norm_num) (by norm_num) (by norm_num)).1

/-- Claim C5: `check_for_changes` returns `true` iff some currently
eligible file's timestamp differs from (or is absent in) the stored
map, or some previously recorded path is no longer eligible; and in
every call — whatever the flag — it overwrites the watcher state with
the freshly observed timestamp map and the current wall-clock time and
persists it, while leaving the index alone. -/
theorem c5_check_for_changes_spec (sys : SystemState) (ws : List SrcFile) (now : Int) :
    ((check_for_changes_op sys ws now).1 = true ↔
      (∃ p m, (p, m) ∈ currentMtimes ws ∧ assocFind p sys.watcher.file_mtimes ≠ some m) ∨
      (∃ p m, (p, m) ∈ sys.watcher.file_mtimes ∧ assocFind p (currentMtimes ws) = none)) ∧
    (check_for_changes_op sys ws now).2.watcher =
      { last_check := now, file_mtimes := currentMtimes ws } ∧
    (check_for_changes_op sys ws now).2.persistedWatcher =
      some { last_check := now, file_mtimes := currentMtimes ws } ∧
    (check_for_changes_op sys ws now).2.index = sys.index := by
  refine ⟨?_, rfl, rfl, rfl⟩
  have hleft : ((currentMtimes ws).any fun pm =>
      decide (assocFind pm.1 sys.watcher.file_mtimes ≠ some pm.2)) = true ↔
      (∃ p m, (p, m) ∈ currentMtimes ws ∧ assocFind p sys.watcher.file_mtimes ≠ some m) := by
    simp [List.any_eq_true, Prod.exists]
  have hright : (sys.watcher.file_mtimes.any fun pm =>
      decide (assocFind pm.1 (currentMtimes ws) = none)) = true ↔
      (∃ p m, (p, m) ∈ sys.watcher.file_mtimes ∧ assocFind p (currentMtimes ws) = none) := by
    simp [List.any_eq_true, Prod.exists]
  show (check_for_changes ws now sys.watcher).1 = true ↔ _
  simp only [check_for_changes]
  cases hc : (currentMtimes ws).any fun pm =>
      decide (assocFind pm.1 sys.watcher.file_mtimes ≠ some pm.2) with
  | true =>
    simp only [hc, if_true]
    simp only [hc] at hleft
    constructor
    · intro _
      exact Or.inl (hleft.mp trivial)
    · intro _
      trivial
  | false =>
    have hnl : ¬ (∃ p m, (p, m) ∈ currentMtimes ws ∧
        assocFind p sys.watcher.file_mtimes ≠ some m) := by
      intro h
      have := hleft.mpr h
      rw [hc] at this
      exact Bool.false_ne_true this
    simp only [hc, Bool.false_eq_true, if_false]
    rw [hright]
    constructor
    · exact Or.inr
    · rintro (h | h)
      · exact absurd h hnl
      · exact h

/-- `search` on an empty corpus returns `[]` (the `if not
self.index["files"]` guard). -/
theorem search_eq_nil_of_empty_corpus (idx : Index) (q : String) (k : Nat) (h : Bool)
    (t y : String) (hf : idx.files = []) : search idx q k h t y = [] := by
  simp [search, hf]

/-- `search` returns `[]` whenever keyword extraction yields no terms:
synonym expansion of the empty set is empty, so the
`if not query_keywords` guard fires. -/
theorem search_eq_nil_of_no_terms (idx : Index) (q : String) (k : Nat) (h : Bool)
    (t y : String) (hq : extract_keywords q = []) : search idx q k h t y = [] := by
  by_cases hf : idx.files.isEmpty
  · simp [search, hf]
  · simp [search, hf, hq, expand_query, dedupFirst, dedupFirstAux]

/-- Claim C8: `search` is total (the embedding is a total function —
no failure case exists to model) and returns the empty list both on an
empty corpus and for every query from which keyword extraction yields
no terms. -/
theorem c8_search_empty_cases :
    (∀ (idx : Index) (q : String) (k : Nat) (h : Bool) (t y : String),
      idx.files = [] → search idx q k h t y = []) ∧
    (∀ (idx : Index) (q : String) (k : Nat) (h : Bool) (t y : String),
      extract_keywords q = [] → search idx q k h t y = []) :=
  ⟨search_eq_nil_of_empty_corpus, search_eq_nil_of_no_terms⟩

/-- Witness for C8: the freshly initialised empty index, and the
stop-word query `"the"` against a non-empty indexed corpus. -/
theorem c8_search_empty_cases_witness :
    search emptyIndex "hello" 5 true "2026-10-12" "2026-10-11" = [] ∧
    search idxW "the" 5 true "2026-10-12" "2026-10-11" = [] :=
  ⟨c8_search_empty_cases.1 emptyIndex "hello" 5 true "2026-10-12" "2026-10-11" rfl,
   c8_search_empty_cases.2 idxW "the" 5 true "2026-10-12" "2026-10-11" rfl⟩

/-- Claim C9: `search` (hot path included) is read-only — it returns
the system state unchanged for every query — whereas
`check_for_changes` rewrites and persists the watcher state even on a
no-change inspection call (shown on a concrete state). -/
theorem c9_search_is_readonly :
    (∀ (st : SystemState) (q : String) (k : Nat) (h : Bool) (t y : String),
      (searchOp st q k h t y).2 = st) ∧
    (check_for_changes_op sys0 [] 5).2 ≠ sys0 :=
  ⟨fun _ _ _ _ _ _ => rfl, by decide⟩

/-- Claim C10: a query all of whose candidate terms are dropped by
extraction returns the empty result list even when a dropped term has
synonyms, because expansion only applies to surviving terms: `"我"`
(single character, also a stop-word) has a synonym entry yet extracts
to nothing, and the two-character stop-word `"可以"` behaves the
same. -/
theorem c10_dropped_terms_no_expansion :
    extract_keywords "我" = [] ∧
    "我" ∈ stopwords ∧
    assocFind "我" SYNONYMS = some ["小飞棍", "助手"] ∧
    (∀ (idx : Index) (k : Nat) (h : Bool) (t y : String), search idx "我" k h t y = []) ∧
    extract_keywords "可以" = [] ∧
    (∀ (idx : Index) (k : Nat) (h : Bool) (t y : String), search idx "可以" k h t y = []) :=
  ⟨rfl, by decide, rfl,
   fun idx k h t y => search_eq_nil_of_no_terms idx "我" k h t y rfl,
   rfl,
   fun idx k h t y => search_eq_nil_of_no_terms idx "可以" k h t y rfl⟩

/-- Claim C7: searching `"用户"` matches a chunk containing only
`"小蝎子"`: expansion unions the extracted terms with the synonym
table's entries exactly as authored (`"用户"` lists `"小蝎子"`;
asymmetric entries such as `"记忆"` listing `"日志"` while `"日志"`
has no entry are preserved), so the chunk indexed under `"小蝎子"` is
returned with that keyword matched. -/
theorem c7_synonym_expansion_matches :
    "小蝎子" ∈ expand_query (extract_keywords "用户") ∧
    assocFind "用户" SYNONYMS = some ["小蝎子", "主人", "朋友"] ∧
    assocFind "记忆" SYNONYMS = some ["记录", "日志", "笔记"] ∧
    assocFind "日志" SYNONYMS = none ∧
    (idx7.files.map fun kv => kv.2.chunks.map (·.keywords)) =
      [[["小蝎子", "小蝎", "蝎子"]]] ∧
    (search idx7 "用户" 5 true "2026-10-12" "2026-10-11").map
      (fun r => (r.path, r.start_line, r.end_line, r.matched_keywords)) =
      [("memory/notes.md", 1, 1, ["小蝎子"])] :=
  ⟨by decide, rfl, rfl, by decide, by decide, by rfl⟩

/-- Claim C1 (refuted — the code diverges from the spec): after editing
`memory/a.md` from `"alpha beta"` to `"gamma delta"`, the incremental
build re-indexes the file (same document set as a rebuild, new chunk
list with hash of the new text only) yet keeps the stale `"alpha"`
postings referencing the old chunk hash, while a full rebuild on the
same corpus state has no `"alpha"` key at all: incremental update does
not replace the postings that referenced the file's old chunk
hashes. -/
theorem c1_incremental_diverges_from_rebuild :
    idxInc.files = idxRe.files ∧
    (idxInc.files.map fun kv => kv.2.chunks.map (·.hash)) = [["gamma delta"]] ∧
    assocFind "alpha" idxInc.keywords =
      some [{ file := "memory/a.md", hash := "alpha beta", freq := 1 }] ∧
    assocFind "alpha" idxRe.keywords = none ∧
    idxInc.keywords ≠ idxRe.keywords :=
  ⟨by decide, by decide, by decide, by decide, by decide⟩

/-- Claim C3 (refuted — the code diverges from the spec): the postings
invariant holds after a full rebuild, but an incremental pass that
removes the only document deletes its `files` entry while leaving the
`"alpha"` posting behind, and a re-indexing pass likewise leaves
postings whose hash no longer occurs in the document's chunk list:
dangling postings are not pruned. -/
theorem c3_postings_invariant_violated :
    postingsConsistent idxFull1 = true ∧
    idxDel.files = [] ∧
    assocFind "alpha" idxDel.keywords =
      some [{ file := "memory/a.md", hash := "alpha beta", freq := 1 }] ∧
    postingsConsistent idxDel = false ∧
    postingsConsistent idxInc = false :=
  ⟨by decide, by decide, by decide, by decide, by decide⟩

/-- Claim C2 (refuted — the code diverges from the spec): `MEMORY.md`
is hot and its chunk's source text contains `"hello"` twice (the
spec-side hot score would be 2 × 2.0 = 4.0 > 1.0), and the chunk's
extracted keywords do contain `"hello"` — but the stored chunk record
has no text (`text = none`), so `_search_in_hot_memory` reads `""` for
every chunk, returns no hot results, and `search` with the hot path
enabled behaves exactly like `search` with it disabled, always running
the full BM25 pass (the returned entry is not hot). -/
theorem c2_hot_memory_path_never_fires :
    is_hot_memory "MEMORY.md" "2026-10-12" "2026-10-11" = true ∧
    (idxC2.files.map fun kv => kv.2.chunks.map fun c => (c.keywords, c.text)) =
      [[(["note", "hello", "world"], (none : Option String))]] ∧
    strCount (lowerStr "# Note\nhello world hello") "hello" = 2 ∧
    search_in_hot_memory idxC2 "2026-10-12" "2026-10-11" ["hello"] 5 = [] ∧
    search idxC2 "hello" 5 true "2026-10-12" "2026-10-11" =
      search idxC2 "hello" 5 false "2026-10-12" "2026-10-11" ∧
    (search idxC2 "hello" 5 true "2026-10-12" "2026-10-11").map (·.is_hot) = [false] :=
  ⟨by decide, by decide, by decide, by rfl, by rfl, by rfl⟩

end MemoryLocal
